import Mathlib

/-!
Shallow embedding of `foamlib/_cases/_openfoam.py`: OpenFOAM environment
detection and command wrapping utilities.

The ambient system state is a pure record: the process environment
(`env : String → Option String`, `none` meaning the variable is unset) and
PATH resolution (`which : String → Bool`, modelling `shutil.which` viewed as
"is this executable resolvable").  Python strings are Lean `String`s; the
string helpers below operate on `String.data` (the underlying `List Char`),
which coincides with the character-sequence view of Python strings.
-/

/-- The ambient system state seen by the module: the process environment and
executable resolution on the search path (`shutil.which`, as a Boolean). -/
structure SysState where
  env : String → Option String
  which : String → Bool

/-- Python truthiness of an `os.environ.get` result: `None` and `""` are
falsy, every other string is truthy. -/
def pyTruthy : Option String → Bool
  | none => false
  | some v => !(v == "")

/-- Embedding of `os.environ.get(var)` filtered through Python truthiness, as used by the
walrus patterns `if version := os.environ.get(...)` in the source: yields
`some v` exactly when the variable is set to a non-empty value. -/
def getEnvTruthy (s : SysState) (var : String) : Option String :=
  match s.env var with
  | none => none
  | some v => if v == "" then none else some v

/-- The `OPENFOAM_COMMANDS` set from the source (membership is all the code
uses, so a list with `contains` is the embedding). -/
def OPENFOAM_COMMANDS : List String :=
  ["blockMesh", "decomposePar", "reconstructPar", "foamRun", "simpleFoam",
   "icoFoam", "pimpleFoam", "interFoam", "setFields", "postProcess",
   "checkMesh", "surfaceFeatureExtract", "snappyHexMesh", "ansysToFoam",
   "fluent3DMeshToFoam", "transformPoints", "createPatch", "mapFields",
   "renumberMesh", "splitMeshRegions", "stitchMesh", "mergeOrSplitBaffles",
   "createBaffles", "topoSet", "refineMesh"]

/-- Constant `DEFAULT_OPENFOAM_VERSION` from the source. -/
def DEFAULT_OPENFOAM_VERSION : String := "2412"

/-- Split a character list at every `/` (the chunks between separators,
empty chunks included). -/
def splitOnSlash : List Char → List (List Char)
  | [] => [[]]
  | c :: cs =>
    if c == '/' then [] :: splitOnSlash cs
    else
      match splitOnSlash cs with
      | [] => [[c]]
      | chunk :: rest => (c :: chunk) :: rest

/-- Embedding of `pathlib.Path(p).parts` for a POSIX path string: a leading `/` becomes the
root component `"/"`, then the non-empty components with `"."` dropped. -/
def pathParts (p : String) : List String :=
  let comps := ((splitOnSlash p.data).filter
    (fun c => !(c.isEmpty) && !(c == ['.']))).map (fun c => String.mk c)
  match p.data with
  | '/' :: _ => "/" :: comps
  | _ => comps

/-- Embedding of `pathlib.Path(p).name` for a POSIX path string: the final component,
excluding the root (empty when there is none). -/
def pathName (p : String) : String :=
  match ((splitOnSlash p.data).filter
      (fun c => !(c.isEmpty) && !(c == ['.']))).getLast? with
  | some c => String.mk c
  | none => ""

/-- Function `is_in_openfoam_environment` from the source: any of the four key
environment variables set to a non-empty value, else both probe executables
resolvable on the search path. -/
def is_in_openfoam_environment (s : SysState) : Bool :=
  ["WM_PROJECT_DIR", "FOAM_APP", "FOAM_SRC", "FOAM_LIBBIN"].any
    (fun var => pyTruthy (s.env var))
  || (s.which "blockMesh" && s.which "foamRun")

/-- Python `a.startswith(b)`. -/
def strStartsWith (a b : String) : Bool :=
  b.data.isPrefixOf a.data

/-- Python `a[n:]`. -/
def strDrop (a : String) (n : Nat) : String :=
  String.mk (a.data.drop n)

/-- Python `len(a)`. -/
def strLen (a : String) : Nat :=
  a.data.length

/-- Python `a.isdigit()` (restricted to ASCII digits): non-empty and all
characters digits. -/
def strIsDigit (a : String) : Bool :=
  !(a.data.isEmpty) && a.data.all Char.isDigit

/-- Python `c in a` for a single character. -/
def strContainsChar (a : String) (c : Char) : Bool :=
  a.data.contains c

/-- The body of the version-scraping loop in `get_openfoam_version`: for one
path component, the version suffix it yields, if any. -/
def partAccept (part : String) : Option String :=
  if strStartsWith part "openfoam" && decide (strLen part > 8) then
    if strIsDigit (strDrop part 8) || strContainsChar (strDrop part 8) '.' then
      some (strDrop part 8)
    else none
  else none

/-- The version-scraping loop in `get_openfoam_version`: first component of
the install-root path that yields a version suffix. -/
def scanParts (parts : List String) : Option String :=
  parts.findSome? partAccept

/-- The `common_versions` probe at the end of `get_openfoam_version`. -/
def probeCommonVersions (s : SysState) : Option String :=
  ["2412", "2406", "11", "10", "9", "8"].find?
    (fun version => s.which ("openfoam" ++ version))

/-- The `if is_in_openfoam_environment():` block of `get_openfoam_version`:
the project-version variable, else scraping the install-root path. -/
def envBlockVersion (s : SysState) : Option String :=
  if is_in_openfoam_environment s then
    match getEnvTruthy s "WM_PROJECT_VERSION" with
    | some version => some version
    | none =>
      match getEnvTruthy s "WM_PROJECT_DIR" with
      | some foam_dir => scanParts (pathParts foam_dir)
      | none => none
  else none

/-- Function `get_openfoam_version` from the source: explicit overrides, then
environment signals (project version variable, then install-root path
scraping), then probing for `openfoam<version>` wrappers on the path. -/
def get_openfoam_version (s : SysState) : Option String :=
  match getEnvTruthy s "FOAMLIB_OPENFOAM_VERSION" with
  | some version => some version
  | none =>
  match getEnvTruthy s "OPENFOAM_VERSION" with
  | some version => some version
  | none =>
  match envBlockVersion s with
  | some version => some version
  | none => probeCommonVersions s

/-- The docker invocation built by get_openfoam_command_prefix. -/
def dockerTokens (version : String) : List String :=
  ["docker", "run", "--rm", "-v", "$\x7bPWD\x7d:/workspace", "-w",
   "/workspace", "openfoam/openfoam" ++ version ++ "-paraview510"]

/-- The tail of get_openfoam_command_prefix once a truthy version is in
hand: the `openfoam<version>` wrapper if resolvable, else docker, else
empty. -/
def wrapperOrDocker (s : SysState) (version : String) : List String :=
  if s.which ("openfoam" ++ version) then ["openfoam" ++ version]
  else if s.which "docker" then dockerTokens version
  else []

/-- The last-resort tail of get_openfoam_command_prefix when no version is
truthy: docker with the default version if resolvable, else empty. -/
def containerOrEmpty (s : SysState) : List String :=
  if s.which "docker" then dockerTokens DEFAULT_OPENFOAM_VERSION else []

/-- The `if not version:` fallback loop of get_openfoam_command_prefix: the
value of `version` after the loop, given its value `version0` before it. -/
def fallbackVersion (s : SysState) (version0 : Option String) : Option String :=
  if pyTruthy version0 then version0
  else
    match ["2412", "2406", "11", "10"].find?
        (fun v => s.which ("openfoam" ++ v)) with
    | some v => some v
    | none => version0

/-- Function get_openfoam_command_prefix from the source.  The final `match`/`if`
reflects the second `if not version:` truthiness test. -/
def get_openfoam_command_prefix (s : SysState) : List String :=
  if is_in_openfoam_environment s then []
  else
    match fallbackVersion s (get_openfoam_version s) with
    | some v => if v == "" then containerOrEmpty s else wrapperOrDocker s v
    | none => containerOrEmpty s

/-- A command token as the source types it: `str | os.PathLike[str]`. -/
inductive CmdToken where
  | str : String → CmdToken
  | path : String → CmdToken
deriving DecidableEq

/-- Function `should_wrap_command` from the source: the basename for PathLike input,
the string itself otherwise, tested for membership in `OPENFOAM_COMMANDS`. -/
def should_wrap_command (cmd : CmdToken) : Bool :=
  let cmd_name :=
    match cmd with
    | .path p => pathName p
    | .str c => c
  OPENFOAM_COMMANDS.contains cmd_name

/-- Accumulator-based worker for Python `str.split()` (split on whitespace
runs, discarding empty fields). -/
def wordsAux : List Char → List Char → List (List Char)
  | [], acc => if acc.isEmpty then [] else [acc.reverse]
  | c :: cs, acc =>
    if c.isWhitespace then
      if acc.isEmpty then wordsAux cs [] else acc.reverse :: wordsAux cs []
    else wordsAux cs (c :: acc)

/-- Python `cmd.split()`. -/
def splitWs (c : String) : List String :=
  (wordsAux c.data []).map String.mk

/-- Python `" ".join(...)`. -/
def joinSpace : List String → String
  | [] => ""
  | [x] => x
  | x :: xs => x ++ " " ++ joinSpace xs

/-- A command as the source types it: a string or a sequence of tokens. -/
inductive Cmd where
  | str : String → Cmd
  | seq : List CmdToken → Cmd
deriving DecidableEq

/-- Function `wrap_openfoam_command` from the source. -/
def wrap_openfoam_command (s : SysState) (cmd : Cmd) : Cmd :=
  match cmd with
  | .str c =>
    match splitWs c with
    | [] => .str c
    | w :: _ =>
      if !(should_wrap_command (.str w)) then .str c
      else
        match get_openfoam_command_prefix s with
        | [] => .str c
        | [p] =>
          if strStartsWith p "openfoam" then .str (p ++ " " ++ c)
          else .str (joinSpace [p] ++ " " ++ c)
        | p :: q :: rest => .str (joinSpace (p :: q :: rest) ++ " " ++ c)
  | .seq toks =>
    match toks with
    | [] => .seq toks
    | t0 :: _ =>
      if !(should_wrap_command t0) then .seq toks
      else
        match get_openfoam_command_prefix s with
        | [] => .seq toks
        | pfx => .seq (pfx.map CmdToken.str ++ toks)

/-- Concrete state: nothing set, only the container runtime resolvable. -/
def stateDockerOnly : SysState :=
  ⟨fun _ => none, fun c => c == "docker"⟩

/-- Concrete state: nothing set, only the `openfoam2412` wrapper resolvable. -/
def stateWrapper2412 : SysState :=
  ⟨fun _ => none, fun c => c == "openfoam2412"⟩

/-- Concrete state: nothing set, nothing resolvable. -/
def stateBarren : SysState :=
  ⟨fun _ => none, fun _ => false⟩

/-- Concrete state: only the install-root variable set, to a versioned
install path. -/
def stateEnvWM : SysState :=
  ⟨fun var =>
    if var == "WM_PROJECT_DIR" then
      some "/opt/openfoam10/platforms/linux64GccDPInt32Opt"
    else none,
   fun _ => false⟩

/-- Concrete state: both version-override variables set (the first must
win). -/
def stateFoamlib7 : SysState :=
  ⟨fun var =>
    if var == "FOAMLIB_OPENFOAM_VERSION" then some "7"
    else if var == "OPENFOAM_VERSION" then some "2406"
    else none,
   fun c => c == "openfoam2412"⟩

/-- Concrete state: only the secondary version-override variable set. -/
def stateOpenfoamVer : SysState :=
  ⟨fun var => if var == "OPENFOAM_VERSION" then some "11" else none,
   fun _ => false⟩

/-! ### String and list infrastructure lemmas -/

theorem string_data_append (a b : String) : (a ++ b).data = a.data ++ b.data := rfl

theorem string_eq_of_data (a b : String) (h : a.data = b.data) : a = b := by
  cases a; cases b; exact congrArg String.mk h

theorem splitOnSlash_ne_nil (xs : List Char) : splitOnSlash xs ≠ [] := by
  induction xs with
  | nil => simp [splitOnSlash]
  | cons d ds ihd =>
    simp only [splitOnSlash]
    split
    · simp
    · cases splitOnSlash ds <;> simp

theorem splitOnSlash_append (xs ys : List Char) :
    splitOnSlash (xs ++ '/' :: ys) = splitOnSlash xs ++ splitOnSlash ys := by
  induction xs with
  | nil =>
    simp [splitOnSlash]
  | cons c cs ih =>
    by_cases hc : c = '/'
    · subst hc
      simp [splitOnSlash, ih]
    · simp only [List.cons_append, splitOnSlash, beq_iff_eq, hc, ite_false, ih]
      cases h : splitOnSlash cs with
      | nil => exact absurd h (splitOnSlash_ne_nil cs)
      | cons chunk rest =>
        rw [List.append_eq, ih, h]
        simp

theorem splitOnSlash_of_no_slash (xs : List Char) (h : ¬ '/' ∈ xs) :
    splitOnSlash xs = [xs] := by
  induction xs with
  | nil => simp [splitOnSlash]
  | cons c cs ih =>
    have hc : ¬ c = '/' := fun hc => h (hc ▸ List.mem_cons_self c cs)
    have hcs : ¬ '/' ∈ cs := fun hm => h (List.mem_cons_of_mem c hm)
    simp only [splitOnSlash, beq_iff_eq]
    rw [if_neg (fun he => hc he), ih hcs]

theorem pathName_append (d name : String) (h1 : name.data ≠ [])
    (h2 : ¬ '/' ∈ name.data) (h3 : name.data ≠ ['.']) :
    pathName (d ++ "/" ++ name) = name := by
  have hdata : (d ++ "/" ++ name).data = d.data ++ '/' :: name.data := by
    rw [string_data_append, string_data_append]
    have hslash : "/".data = ['/'] := rfl
    rw [hslash, List.append_assoc]
    rfl
  unfold pathName
  rw [hdata, splitOnSlash_append, List.filter_append,
    splitOnSlash_of_no_slash name.data h2]
  have hkeep : (!(List.isEmpty name.data) && !(name.data == ['.'])) = true := by
    simp only [Bool.and_eq_true, Bool.not_eq_true']
    constructor
    · cases hn : name.data with
      | nil => exact absurd hn h1
      | cons a l => simp [List.isEmpty]
    · simpa using h3
  simp only [List.filter, hkeep]
  rw [List.getLast?_concat]

/-! ### Environment and version resolution lemmas -/

theorem pyTruthy_iff (o : Option String) :
    pyTruthy o = true ↔ ∃ x, o = some x ∧ x ≠ "" := by
  cases o <;> simp [pyTruthy]

theorem getEnvTruthy_eq_some (s : SysState) (var v : String) :
    getEnvTruthy s var = some v ↔ s.env var = some v ∧ v ≠ "" := by
  unfold getEnvTruthy
  cases h : s.env var with
  | none => simp
  | some x =>
    by_cases hx : x = ""
    · simp [hx, eq_comm]
    · simp only [beq_iff_eq, hx, ite_false, Option.some.injEq]
      constructor
      · intro hv
        exact ⟨hv ▸ rfl, hv ▸ hx⟩
      · intro hv
        exact hv.1

theorem getEnvTruthy_eq_none_of (s : SysState) (var : String)
    (h : s.env var = none ∨ s.env var = some "") :
    getEnvTruthy s var = none := by
  unfold getEnvTruthy
  rcases h with h | h <;> simp [h]

theorem strStartsWith_decomp (a b : String) (h : strStartsWith a b = true) :
    a = b ++ strDrop a (strLen b) := by
  unfold strStartsWith at h
  rw [ List.isPrefixOf_iff_prefix] at h
  obtain ⟨t, ht⟩ := h
  apply string_eq_of_data
  rw [string_data_append]
  show a.data = b.data ++ a.data.drop b.data.length
  rw [← ht, List.drop_left]

theorem strDrop_ne_empty (a : String) (n : Nat) (h : n < strLen a) :
    strDrop a n ≠ "" := by
  intro he
  have hd : (strDrop a n).data = [] := he ▸ rfl
  rw [show (strDrop a n).data = a.data.drop n from rfl,
    List.drop_eq_nil_iff] at hd
  exact absurd hd (by unfold strLen at h; omega)

theorem partAccept_eq_some (part v : String) (h : partAccept part = some v) :
    part = "openfoam" ++ v ∧ v ≠ "" ∧
      (strIsDigit v = true ∨ strContainsChar v '.' = true) := by
  unfold partAccept at h
  split at h
  case isTrue hcond =>
    rw [Bool.and_eq_true, decide_eq_true_iff] at hcond
    split at h
    case isTrue hver =>
      have hv : v = strDrop part 8 := (Option.some.inj h).symm
      have hlen : strLen "openfoam" = 8 := rfl
      refine ⟨?_, ?_, ?_⟩
      · rw [hv, ← hlen]
        exact strStartsWith_decomp part "openfoam" hcond.1
      · rw [hv]
        exact strDrop_ne_empty part 8 hcond.2
      · rw [hv]
        exact (Bool.or_eq_true _ _).mp hver
    case isFalse => exact absurd h (by simp)
  case isFalse => exact absurd h (by simp)

theorem scanParts_eq_some (parts : List String) (v : String)
    (h : scanParts parts = some v) :
    ("openfoam" ++ v) ∈ parts ∧ v ≠ "" ∧
      (strIsDigit v = true ∨ strContainsChar v '.' = true) := by
  obtain ⟨part, hmem, hacc⟩ := List.exists_of_findSome?_eq_some h
  obtain ⟨heq, hne, hdig⟩ := partAccept_eq_some part v hacc
  exact ⟨heq ▸ hmem, hne, hdig⟩

theorem probeCommonVersions_ne_empty (s : SysState) (v : String)
    (h : probeCommonVersions s = some v) : v ≠ "" := by
  have hmem := List.mem_of_find?_eq_some h
  have : ∀ x ∈ ["2412", "2406", "11", "10", "9", "8"], x ≠ "" := by decide
  exact this v hmem

theorem envBlockVersion_ne_empty (s : SysState) (v : String)
    (h : envBlockVersion s = some v) : v ≠ "" := by
  unfold envBlockVersion at h
  split at h
  · split at h
    case isTrue.h_1 w hw =>
      have hv : w = v := Option.some.inj h
      exact hv ▸ ((getEnvTruthy_eq_some s _ w).mp hw).2
    case isTrue.h_2 hw =>
      split at h
      case h_1 foam_dir hdir =>
        exact (scanParts_eq_some _ v h).2.1
      case h_2 => exact absurd h (by simp)
  · exact absurd h (by simp)

theorem version_ne_empty (s : SysState) (v : String)
    (h : get_openfoam_version s = some v) : v ≠ "" := by
  unfold get_openfoam_version at h
  split at h
  case h_1 w hw =>
    have hv : w = v := Option.some.inj h
    exact hv ▸ ((getEnvTruthy_eq_some s _ w).mp hw).2
  case h_2 =>
    split at h
    case h_1 w hw =>
      have hv : w = v := Option.some.inj h
      exact hv ▸ ((getEnvTruthy_eq_some s _ w).mp hw).2
    case h_2 =>
      split at h
      case h_1 w hw =>
        have hv : w = v := Option.some.inj h
        exact hv ▸ envBlockVersion_ne_empty s w hw
      case h_2 => exact probeCommonVersions_ne_empty s v h

/-! ### The recognized-command set and the shapes of wrapper tokens -/

theorem openfoam_append_data (v : String) :
    ("openfoam" ++ v).data =
      'o' :: 'p' :: 'e' :: 'n' :: 'f' :: 'o' :: 'a' :: 'm' :: v.data := by
  rw [string_data_append]
  rfl

theorem command_head_ne_o :
    ∀ m ∈ OPENFOAM_COMMANDS, ¬ m.data.head? = some 'o' := by decide

theorem openfoam_ne_docker (v : String) : ("openfoam" ++ v) ≠ "docker" := by
  intro h
  have hh : ("openfoam" ++ v).data.head? = "docker".data.head? := by rw [h]
  rw [openfoam_append_data] at hh
  simp only [List.head?_cons] at hh
  exact absurd hh (by decide)

theorem contains_eq_false_of_head_o (t : String) (h : t.data.head? = some 'o') :
    OPENFOAM_COMMANDS.contains t = false := by
  cases hb : OPENFOAM_COMMANDS.contains t
  · rfl
  · exact absurd h (command_head_ne_o t (List.elem_iff.mp hb))

theorem openfoam_contains_false (v : String) :
    OPENFOAM_COMMANDS.contains ("openfoam" ++ v) = false := by
  apply contains_eq_false_of_head_o
  rw [openfoam_append_data]
  rfl

theorem docker_contains_false : OPENFOAM_COMMANDS.contains "docker" = false := by
  decide

/-! ### Shape of the synthesized command prefix -/

theorem fallbackVersion_eq_none (s : SysState) (version0 : Option String)
    (h : fallbackVersion s version0 = none) : version0 = none := by
  unfold fallbackVersion at h
  split at h
  · exact h
  · split at h
    · exact absurd h (by simp)
    · exact h

theorem fallbackVersion_cases (s : SysState) (version0 : Option String)
    (v : String) (h : fallbackVersion s version0 = some v) :
    version0 = some v ∨
      ["2412", "2406", "11", "10"].find?
        (fun x => s.which ("openfoam" ++ x)) = some v := by
  unfold fallbackVersion at h
  split at h
  · exact Or.inl h
  · split at h
    case isFalse.h_1 w hw => exact Or.inr (h ▸ hw)
    case isFalse.h_2 => exact Or.inl h

theorem fallbackVersion_get_ne_empty (s : SysState) (v : String)
    (h : fallbackVersion s (get_openfoam_version s) = some v) : v ≠ "" := by
  rcases fallbackVersion_cases s _ v h with hg | hf
  · exact version_ne_empty s v hg
  · have hmem := List.mem_of_find?_eq_some hf
    have : ∀ x ∈ ["2412", "2406", "11", "10"], x ≠ "" := by decide
    exact this v hmem

theorem cmdPfx_shape (s : SysState) :
    get_openfoam_command_prefix s = []
    ∨ (∃ v, get_openfoam_command_prefix s = ["openfoam" ++ v])
    ∨ (∃ v, get_openfoam_command_prefix s = dockerTokens v) := by
  unfold get_openfoam_command_prefix
  split
  · exact Or.inl rfl
  · split
    case isFalse.h_1 v hv =>
      split
      · unfold containerOrEmpty
        split
        · exact Or.inr (Or.inr ⟨DEFAULT_OPENFOAM_VERSION, rfl⟩)
        · exact Or.inl rfl
      · unfold wrapperOrDocker
        split
        · exact Or.inr (Or.inl ⟨v, rfl⟩)
        · split
          · exact Or.inr (Or.inr ⟨v, rfl⟩)
          · exact Or.inl rfl
    case isFalse.h_2 =>
      unfold containerOrEmpty
      split
      · exact Or.inr (Or.inr ⟨DEFAULT_OPENFOAM_VERSION, rfl⟩)
      · exact Or.inl rfl

theorem dockerMode_version (s : SysState)
    (h : ( get_openfoam_command_prefix s).head? = some "docker") :
    get_openfoam_command_prefix s =
      dockerTokens ((get_openfoam_version s).getD DEFAULT_OPENFOAM_VERSION) := by
  unfold get_openfoam_command_prefix at h ⊢
  cases his : is_in_openfoam_environment s with
  | true => rw [his] at h; simp at h
  | false =>
    rw [his] at h
    simp only [Bool.false_eq_true, if_false] at h ⊢
    cases hfv : fallbackVersion s (get_openfoam_version s) with
    | none =>
      rw [hfv] at h
      replace h : (containerOrEmpty s).head? = some "docker" := h
      show containerOrEmpty s = _
      have hg : get_openfoam_version s = none := fallbackVersion_eq_none s _ hfv
      unfold containerOrEmpty at h ⊢
      cases hd : s.which "docker" with
      | false => rw [hd] at h; simp at h
      | true =>
        rw [hg]
        simp
    | some v =>
      rw [hfv] at h
      replace h :
          (if (v == "") = true then containerOrEmpty s
           else wrapperOrDocker s v).head? = some "docker" := h
      show (if (v == "") = true then containerOrEmpty s
            else wrapperOrDocker s v) = _
      have hve : v ≠ "" := fallbackVersion_get_ne_empty s v hfv
      rw [if_neg (by simpa using hve)] at h ⊢
      unfold wrapperOrDocker at h ⊢
      cases hw : s.which ("openfoam" ++ v) with
      | true =>
        rw [hw] at h
        simp only [if_true, List.head?_cons, Option.some.injEq] at h
        exact absurd h (openfoam_ne_docker v)
      | false =>
        rw [hw] at h
        simp only [Bool.false_eq_true, if_false] at h ⊢
        cases hd : s.which "docker" with
        | false => rw [hd] at h; simp at h
        | true =>
          rcases fallbackVersion_cases s _ v hfv with hg | hf
          · rw [hg]
            rfl
          · have hwt := List.find?_some hf
            rw [hw] at hwt
            exact absurd hwt (by simp)

/-! ### Words of a wrapped command string -/

theorem string_append_assoc (a b c : String) :
    (a ++ b) ++ c = a ++ (b ++ c) := by
  apply string_eq_of_data
  simp [string_data_append, List.append_assoc]

theorem wordsAux_acc_head (cs : List Char) : ∀ acc : List Char, acc ≠ [] →
    ∃ w ws, wordsAux cs acc = w :: ws ∧ w.head? = acc.reverse.head? := by
  induction cs with
  | nil =>
    intro acc hacc
    cases acc with
    | nil => exact absurd rfl hacc
    | cons a as => exact ⟨(a :: as).reverse, [], rfl, rfl⟩
  | cons c cs ih =>
    intro acc hacc
    by_cases hw : c.isWhitespace
    · refine ⟨acc.reverse, wordsAux cs [], ?_, rfl⟩
      cases acc with
      | nil => exact absurd rfl hacc
      | cons a as => simp [wordsAux, hw]
    · obtain ⟨w, ws, hws, hhead⟩ := ih (c :: acc) (by simp)
      refine ⟨w, ws, ?_, ?_⟩
      · rw [show wordsAux (c :: cs) acc = wordsAux cs (c :: acc) from by
          simp [wordsAux, hw]]
        exact hws
      · rw [hhead, List.reverse_cons, List.head?_append]
        cases hrev : acc.reverse with
        | nil => exact absurd (List.reverse_eq_nil_iff.mp hrev) hacc
        | cons r rs => rfl

theorem firstWord_head (l : List Char) (ch : Char) (h : l.head? = some ch)
    (hw : ch.isWhitespace = false) :
    ∃ w ws, wordsAux l [] = w :: ws ∧ w.head? = some ch := by
  cases l with
  | nil => simp at h
  | cons c cs =>
    have hc : c = ch := by simpa using h
    subst hc
    obtain ⟨w, ws, hws, hhead⟩ := wordsAux_acc_head cs [c] (by simp)
    refine ⟨w, ws, ?_, ?_⟩
    · rw [show wordsAux (c :: cs) [] = wordsAux cs [c] from by
        simp [wordsAux, hw]]
      exact hws
    · rw [hhead]
      rfl

theorem wordsAux_nonws_chunk (x : List Char) : ∀ (y acc : List Char),
    (∀ c ∈ x, c.isWhitespace = false) →
    wordsAux (x ++ y) acc = wordsAux y (x.reverse ++ acc) := by
  induction x with
  | nil => intro y acc _; simp
  | cons c cs ih =>
    intro y acc h
    have hc : c.isWhitespace = false := h c (List.mem_cons_self c cs)
    rw [List.cons_append,
      show wordsAux (c :: (cs ++ y)) acc = wordsAux (cs ++ y) (c :: acc) from by
        simp [wordsAux, hc],
      ih y (c :: acc) (fun d hd => h d (List.mem_cons_of_mem c hd)),
      List.reverse_cons, List.append_assoc]
    rfl

theorem wordsAux_space (y acc : List Char) (hacc : acc ≠ []) :
    wordsAux (' ' :: y) acc = acc.reverse :: wordsAux y [] := by
  cases acc with
  | nil => exact absurd rfl hacc
  | cons a as => rfl

theorem splitWs_word_space (w rest : String) (hne : w.data ≠ [])
    (hnw : ∀ c ∈ w.data, c.isWhitespace = false) :
    splitWs (w ++ " " ++ rest) = w :: splitWs rest := by
  unfold splitWs
  have hdata : (w ++ " " ++ rest).data = w.data ++ ' ' :: rest.data := by
    rw [string_data_append, string_data_append,
      show " ".data = [' '] from rfl, List.append_assoc]
    rfl
  rw [hdata, wordsAux_nonws_chunk w.data (' ' :: rest.data) [] hnw,
    List.append_nil, wordsAux_space rest.data w.data.reverse
      (by simpa using hne), List.reverse_reverse, List.map_cons]

/-! ### Re-wrapping a wrapped command leaves it unchanged -/

theorem wrap_str_of_not_wrappable (s : SysState) (c w : String)
    (ws : List String) (hsp : splitWs c = w :: ws)
    (hsw : should_wrap_command (.str w) = false) :
    wrap_openfoam_command s (.str c) = .str c := by
  simp [wrap_openfoam_command, hsp, hsw]

theorem wrap_str_openfoam_unchanged (s : SysState) (v c : String) :
    wrap_openfoam_command s (.str (("openfoam" ++ v) ++ " " ++ c)) =
      .str (("openfoam" ++ v) ++ " " ++ c) := by
  have hd : ((("openfoam" ++ v) ++ " " ++ c)).data.head? = some 'o' := by
    rw [string_data_append, string_data_append, openfoam_append_data]
    rfl
  obtain ⟨w2, ws2, hsp2, hh2⟩ := firstWord_head _ 'o' hd (by decide)
  have hsplit2 : splitWs (("openfoam" ++ v) ++ " " ++ c)
      = String.mk w2 :: ws2.map String.mk := by
    unfold splitWs
    rw [hsp2, List.map_cons]
  have hsw3 : should_wrap_command (.str (String.mk w2)) = false := by
    show OPENFOAM_COMMANDS.contains (String.mk w2) = false
    exact contains_eq_false_of_head_o _ hh2
  exact wrap_str_of_not_wrappable s _ _ _ hsplit2 hsw3

theorem wrap_str_first_docker_unchanged (s : SysState) (rest : String) :
    wrap_openfoam_command s (.str ("docker" ++ " " ++ rest)) =
      .str ("docker" ++ " " ++ rest) := by
  have hsplit2 : splitWs ("docker" ++ " " ++ rest) = "docker" :: splitWs rest :=
    splitWs_word_space "docker" rest (by decide) (by decide)
  have hswd : should_wrap_command (.str "docker") = false := docker_contains_false
  exact wrap_str_of_not_wrappable s _ _ _ hsplit2 hswd

theorem wrap_str_docker_unchanged (s : SysState) (v c : String) :
    wrap_openfoam_command s (.str (joinSpace (dockerTokens v) ++ " " ++ c)) =
      .str (joinSpace (dockerTokens v) ++ " " ++ c) := by
  have hjoin : joinSpace (dockerTokens v) ++ " " ++ c
      = "docker" ++ " " ++ (joinSpace (List.tail (dockerTokens v)) ++ " " ++ c) := by
    show ("docker" ++ " " ++ joinSpace (List.tail (dockerTokens v))) ++ " " ++ c = _
    apply string_eq_of_data
    simp [string_data_append, List.append_assoc]
  rw [hjoin]
  exact wrap_str_first_docker_unchanged s _

theorem wrap_idempotent (s : SysState) (cmd : Cmd) :
    wrap_openfoam_command s (wrap_openfoam_command s cmd) =
      wrap_openfoam_command s cmd := by
  cases cmd with
  | seq toks =>
    cases toks with
    | nil => rfl
    | cons t0 rest =>
      cases hsw : should_wrap_command t0 with
      | false =>
        have h1 : wrap_openfoam_command s (.seq (t0 :: rest)) = .seq (t0 :: rest) := by
          simp [wrap_openfoam_command, hsw]
        rw [h1]
        exact h1
      | true =>
        cases hpfx : get_openfoam_command_prefix s with
        | nil =>
          have h1 : wrap_openfoam_command s (.seq (t0 :: rest)) = .seq (t0 :: rest) := by
            simp [wrap_openfoam_command, hsw, hpfx]
          rw [h1]
          exact h1
        | cons p0 ptail =>
          have h1 : wrap_openfoam_command s (.seq (t0 :: rest)) =
              .seq (CmdToken.str p0 :: (ptail.map CmdToken.str ++ (t0 :: rest))) := by
            simp [wrap_openfoam_command, hsw, hpfx]
          have hp0 : should_wrap_command (CmdToken.str p0) = false := by
            rcases cmdPfx_shape s with hsh | ⟨v, hsh⟩ | ⟨v, hsh⟩
            · rw [hsh] at hpfx
              exact absurd hpfx (by simp)
            · have he : ["openfoam" ++ v] = p0 :: ptail := hsh.symm.trans hpfx
              have hp := (List.cons.inj he).1
              rw [← hp]
              show OPENFOAM_COMMANDS.contains ("openfoam" ++ v) = false
              exact openfoam_contains_false v
            · have he : dockerTokens v = p0 :: ptail := hsh.symm.trans hpfx
              have hp := (List.cons.inj he).1
              rw [← hp]
              show OPENFOAM_COMMANDS.contains "docker" = false
              exact docker_contains_false
          rw [h1]
          simp [wrap_openfoam_command, hp0]
  | str c =>
    cases hsp : splitWs c with
    | nil =>
      have h1 : wrap_openfoam_command s (.str c) = .str c := by
        simp [wrap_openfoam_command, hsp]
      rw [h1]
      exact h1
    | cons w ws =>
      cases hsw : should_wrap_command (.str w) with
      | false =>
        have h1 : wrap_openfoam_command s (.str c) = .str c := by
          simp [wrap_openfoam_command, hsp, hsw]
        rw [h1]
        exact h1
      | true =>
        rcases cmdPfx_shape s with hsh | ⟨v, hsh⟩ | ⟨v, hsh⟩
        · have h1 : wrap_openfoam_command s (.str c) = .str c := by
            simp [wrap_openfoam_command, hsp, hsw, hsh]
          rw [h1]
          exact h1
        · have hsw2 : strStartsWith ("openfoam" ++ v) "openfoam" = true := by
            unfold strStartsWith
            rw [ List.isPrefixOf_iff_prefix]
            exact ⟨v.data, (string_data_append "openfoam" v).symm⟩
          have h1 : wrap_openfoam_command s (.str c) =
              .str (("openfoam" ++ v) ++ " " ++ c) := by
            simp [wrap_openfoam_command, hsp, hsw, hsh, hsw2]
          rw [h1]
          exact wrap_str_openfoam_unchanged s v c
        · have h1 : wrap_openfoam_command s (.str c) =
              .str (joinSpace (dockerTokens v) ++ " " ++ c) := by
            simp [wrap_openfoam_command, hsp, hsw, hsh, dockerTokens]
          rw [h1]
          exact wrap_str_docker_unchanged s v c

/-! ### The claims -/

/-- C1: counterexample — the claim says `should_wrap_command` ignores a
directory prefix whether the token is a plain string or a path-like object,
but for the plain string `"/usr/bin/blockMesh"` the full string is tested
for membership and the result is `false`, not `true`. -/
theorem C1_counterexample :
    should_wrap_command (CmdToken.str "/usr/bin/blockMesh") = false := by
  decide

/-- C1 (amended): for every recognized command name, `should_wrap_command`
is true on the bare name as a plain string and on a path-like token with any
directory prefix attached; membership is by basename only for path-like
tokens, while a plain-string token is tested verbatim; every token whose
tested name is not in the recognized set yields false. -/
theorem C1_amended_basename_membership :
    (∀ name ∈ OPENFOAM_COMMANDS,
        should_wrap_command (.str name) = true ∧
        ∀ d : String, should_wrap_command (.path (d ++ "/" ++ name)) = true) ∧
    (∀ t : String, OPENFOAM_COMMANDS.contains t = false →
        should_wrap_command (.str t) = false) ∧
    (∀ p : String, OPENFOAM_COMMANDS.contains (pathName p) = false →
        should_wrap_command (.path p) = false) := by
  refine ⟨?_, ?_, ?_⟩
  · intro name hmem
    have hP : ∀ n ∈ OPENFOAM_COMMANDS,
        n.data ≠ [] ∧ ¬ '/' ∈ n.data ∧ n.data ≠ ['.'] := by decide
    have hprops := hP name hmem
    constructor
    · show OPENFOAM_COMMANDS.contains name = true
      exact List.elem_iff.mpr hmem
    · intro d
      show OPENFOAM_COMMANDS.contains (pathName (d ++ "/" ++ name)) = true
      rw [pathName_append d name hprops.1 hprops.2.1 hprops.2.2]
      exact List.elem_iff.mpr hmem
  · intro t ht
    exact ht
  · intro p hp
    exact hp

/-- C1 witness: the amended claim at `name = "blockMesh"`, `d = "/usr/bin"`. -/
theorem C1_witness :
    "blockMesh" ∈ OPENFOAM_COMMANDS ∧
    should_wrap_command (.str "blockMesh") = true ∧
    should_wrap_command (.path ("/usr/bin" ++ "/" ++ "blockMesh")) = true :=
  ⟨by decide,
   (C1_amended_basename_membership.1 "blockMesh" (by decide)).1,
   (C1_amended_basename_membership.1 "blockMesh" (by decide)).2 "/usr/bin"⟩

/-- C2: `is_in_openfoam_environment` is true iff one of the four activation
variables is set to a non-empty value or both probe executables resolve on
the search path; and whenever it is true, the command prefix is empty. -/
theorem C2_env_detection (s : SysState) :
    (is_in_openfoam_environment s = true ↔
      ((∃ var ∈ ["WM_PROJECT_DIR", "FOAM_APP", "FOAM_SRC", "FOAM_LIBBIN"],
          ∃ x, s.env var = some x ∧ x ≠ "") ∨
        (s.which "blockMesh" = true ∧ s.which "foamRun" = true))) ∧
    (is_in_openfoam_environment s = true →
      get_openfoam_command_prefix s = []) := by
  constructor
  · unfold is_in_openfoam_environment
    simp only [List.any_eq_true, Bool.or_eq_true, Bool.and_eq_true,
      pyTruthy_iff]
  · intro h
    simp [ get_openfoam_command_prefix, h]

/-- C2 witness: with only the install-root variable set (non-empty), the
environment is active and the prefix is empty. -/
theorem C2_witness :
    is_in_openfoam_environment stateEnvWM = true ∧
    get_openfoam_command_prefix stateEnvWM = [] :=
  ⟨by decide, (C2_env_detection stateEnvWM).2 (by decide)⟩

/-- C3: whenever the prefix is in container mode (its head token is the
container runtime), it is exactly the eight-token docker invocation, with
the resolved version or the default version `"2412"` when none resolved. -/
theorem C3_container_invocation (s : SysState)
    (h : ( get_openfoam_command_prefix s).head? = some "docker") :
    get_openfoam_command_prefix s =
      ["docker", "run", "--rm", "-v", "$\x7bPWD\x7d:/workspace", "-w",
       "/workspace",
       "openfoam/openfoam" ++
         ((get_openfoam_version s).getD DEFAULT_OPENFOAM_VERSION) ++
         "-paraview510"] :=
  dockerMode_version s h

/-- C3 witness: with nothing set and only docker resolvable, the prefix is
the docker invocation with the default version. -/
theorem C3_witness :
    ( get_openfoam_command_prefix stateDockerOnly).head? = some "docker" ∧
    get_openfoam_command_prefix stateDockerOnly =
      ["docker", "run", "--rm", "-v", "$\x7bPWD\x7d:/workspace", "-w",
       "/workspace", "openfoam/openfoam2412-paraview510"] :=
  ⟨by decide,
   (C3_container_invocation stateDockerOnly (by decide)).trans (by decide)⟩

/-- C4: for sequence-form commands, `wrap_openfoam_command` returns the
input unchanged when the sequence is empty, its first token is not
wrappable, or the prefix is empty; otherwise it prepends the prefix tokens
before all original tokens, in order, with no token flattened or re-split. -/
theorem C4_wrap_sequence (s : SysState) (toks : List CmdToken) :
    (toks = [] → wrap_openfoam_command s (.seq toks) = .seq toks) ∧
    (∀ t0 rest, toks = t0 :: rest → should_wrap_command t0 = false →
      wrap_openfoam_command s (.seq toks) = .seq toks) ∧
    ( get_openfoam_command_prefix s = [] →
      wrap_openfoam_command s (.seq toks) = .seq toks) ∧
    (∀ t0 rest, toks = t0 :: rest → should_wrap_command t0 = true →
      get_openfoam_command_prefix s ≠ [] →
      wrap_openfoam_command s (.seq toks) =
        .seq (( get_openfoam_command_prefix s).map CmdToken.str ++ toks)) := by
  refine ⟨?_, ?_, ?_, ?_⟩
  · rintro rfl
    rfl
  · rintro t0 rest rfl hsw
    simp [wrap_openfoam_command, hsw]
  · intro hpfx
    cases toks with
    | nil => rfl
    | cons t0 rest =>
      cases hsw : should_wrap_command t0 with
      | false => simp [wrap_openfoam_command, hsw]
      | true => simp [wrap_openfoam_command, hsw, hpfx]
  · rintro t0 rest rfl hsw hne
    cases hp : get_openfoam_command_prefix s with
    | nil => exact absurd hp hne
    | cons p0 ptail => simp [wrap_openfoam_command, hsw, hp]

/-- C4 witness: the example from the spec, `["blockMesh", "-case", "mycase"]` with
prefix `["openfoam2412"]`. -/
theorem C4_witness :
    should_wrap_command (CmdToken.str "blockMesh") = true ∧
    get_openfoam_command_prefix stateWrapper2412 ≠ [] ∧
    wrap_openfoam_command stateWrapper2412
        (.seq [.str "blockMesh", .str "-case", .str "mycase"]) =
      .seq [.str "openfoam2412", .str "blockMesh", .str "-case",
            .str "mycase"] := by
  refine ⟨by decide, by decide, ?_⟩
  have h := (C4_wrap_sequence stateWrapper2412
      [.str "blockMesh", .str "-case", .str "mycase"]).2.2.2
      (.str "blockMesh") [.str "-case", .str "mycase"] rfl (by decide)
      (by decide)
  exact h.trans (by decide)

/-- C5: for string-form commands whose first whitespace-delimited word is
wrappable and whose prefix is non-empty, the single-token wrapper form
prepends the token and a space to the whole original string, and the
multi-token container form prepends the space-joined prefix and a space;
a non-wrappable first word or an empty prefix leaves the string unchanged. -/
theorem C5_wrap_string (s : SysState) (c : String) :
    (∀ w rest, splitWs c = w :: rest → should_wrap_command (.str w) = true →
      (∀ p, get_openfoam_command_prefix s = [p] →
        strStartsWith p "openfoam" = true →
        wrap_openfoam_command s (.str c) = .str (p ++ " " ++ c)) ∧
      (∀ p q prest, get_openfoam_command_prefix s = p :: q :: prest →
        wrap_openfoam_command s (.str c) =
          .str (joinSpace (p :: q :: prest) ++ " " ++ c))) ∧
    (∀ w rest, splitWs c = w :: rest → should_wrap_command (.str w) = false →
      wrap_openfoam_command s (.str c) = .str c) ∧
    ( get_openfoam_command_prefix s = [] →
      wrap_openfoam_command s (.str c) = .str c) := by
  refine ⟨?_, ?_, ?_⟩
  · intro w rest hsp hsw
    constructor
    · intro p hp hst
      simp [wrap_openfoam_command, hsp, hsw, hp, hst]
    · intro p q prest hp
      simp [wrap_openfoam_command, hsp, hsw, hp]
  · intro w rest hsp hsw
    exact wrap_str_of_not_wrappable s c w rest hsp hsw
  · intro hpfx
    cases hsp : splitWs c with
    | nil => simp [wrap_openfoam_command, hsp]
    | cons w rest =>
      cases hsw : should_wrap_command (.str w) with
      | false => exact wrap_str_of_not_wrappable s c w rest hsp hsw
      | true => simp [wrap_openfoam_command, hsp, hsw, hpfx]

/-- C5 witness: the wrapper form on `"blockMesh -case mycase"`, and the
example from the spec, `"checkMesh -latestTime"`, unchanged under an empty prefix. -/
theorem C5_witness :
    wrap_openfoam_command stateWrapper2412 (.str "blockMesh -case mycase") =
      .str ("openfoam2412" ++ " " ++ "blockMesh -case mycase") ∧
    wrap_openfoam_command stateBarren (.str "checkMesh -latestTime") =
      .str "checkMesh -latestTime" := by
  constructor
  · exact ((C5_wrap_string stateWrapper2412 "blockMesh -case mycase").1
      "blockMesh" ["-case", "mycase"] (by decide) (by decide)).1
      "openfoam2412" (by decide) (by decide)
  · exact (C5_wrap_string stateBarren "checkMesh -latestTime").2.2 (by decide)

/-- C6: a non-empty `FOAMLIB_OPENFOAM_VERSION` wins over everything else;
when it is unset (or empty), a non-empty `OPENFOAM_VERSION` is returned
next, before any environment- or probe-based detection. -/
theorem C6_version_override (s : SysState) :
    (∀ v, s.env "FOAMLIB_OPENFOAM_VERSION" = some v → v ≠ "" →
      get_openfoam_version s = some v) ∧
    (∀ w, (s.env "FOAMLIB_OPENFOAM_VERSION" = none ∨
           s.env "FOAMLIB_OPENFOAM_VERSION" = some "") →
      s.env "OPENFOAM_VERSION" = some w → w ≠ "" →
      get_openfoam_version s = some w) := by
  constructor
  · intro v hv hne
    unfold get_openfoam_version
    rw [(getEnvTruthy_eq_some s "FOAMLIB_OPENFOAM_VERSION" v).mpr ⟨hv, hne⟩]
  · intro w hnone hw hne
    unfold get_openfoam_version
    rw [getEnvTruthy_eq_none_of s "FOAMLIB_OPENFOAM_VERSION" hnone,
      (getEnvTruthy_eq_some s "OPENFOAM_VERSION" w).mpr ⟨hw, hne⟩]

/-- C6 witness: `FOAMLIB_OPENFOAM_VERSION=7` wins even with
`OPENFOAM_VERSION=2406` set and `openfoam2412` resolvable; with only
`OPENFOAM_VERSION=11` set, that value is returned. -/
theorem C6_witness :
    stateFoamlib7.env "FOAMLIB_OPENFOAM_VERSION" = some "7" ∧
    stateFoamlib7.env "OPENFOAM_VERSION" = some "2406" ∧
    get_openfoam_version stateFoamlib7 = some "7" ∧
    get_openfoam_version stateOpenfoamVer = some "11" := by
  refine ⟨by decide, by decide, ?_, ?_⟩
  · exact (C6_version_override stateFoamlib7).1 "7" (by decide) (by decide)
  · exact (C6_version_override stateOpenfoamVer).2 "11" (Or.inl (by decide))
      (by decide) (by decide)

/-- C7: with no override set, no project-version variable set, an active
environment and a set install-root path, the version is scraped from the
path components: the first component `openfoam<suffix>` whose suffix is all
digits or contains a dot yields that suffix (`/opt/openfoam10/...` yields
`"10"`), and a non-version-like suffix such as `"-dev"` is rejected. -/
theorem C7_version_from_install_root (s : SysState)
    (h1 : s.env "FOAMLIB_OPENFOAM_VERSION" = none ∨
          s.env "FOAMLIB_OPENFOAM_VERSION" = some "")
    (h2 : s.env "OPENFOAM_VERSION" = none ∨
          s.env "OPENFOAM_VERSION" = some "")
    (h3 : s.env "WM_PROJECT_VERSION" = none ∨
          s.env "WM_PROJECT_VERSION" = some "")
    (h4 : is_in_openfoam_environment s = true)
    (p : String) (h5 : s.env "WM_PROJECT_DIR" = some p) (h6 : p ≠ "") :
    (∀ v, scanParts (pathParts p) = some v →
      get_openfoam_version s = some v) ∧
    (∀ parts v, scanParts parts = some v →
      ("openfoam" ++ v) ∈ parts ∧ v ≠ "" ∧
        (strIsDigit v = true ∨ strContainsChar v '.' = true)) ∧
    (p = "/opt/openfoam10/platforms/linux64GccDPInt32Opt" →
      get_openfoam_version s = some "10") ∧
    scanParts ["/", "opt", "openfoam-dev"] = none := by
  have hmain : ∀ v, scanParts (pathParts p) = some v →
      get_openfoam_version s = some v := by
    intro v hv
    unfold get_openfoam_version
    have hblock : envBlockVersion s = some v := by
      unfold envBlockVersion
      rw [if_pos h4, getEnvTruthy_eq_none_of s "WM_PROJECT_VERSION" h3,
        (getEnvTruthy_eq_some s "WM_PROJECT_DIR" p).mpr ⟨h5, h6⟩]
      exact hv
    rw [getEnvTruthy_eq_none_of s "FOAMLIB_OPENFOAM_VERSION" h1,
      getEnvTruthy_eq_none_of s "OPENFOAM_VERSION" h2, hblock]
  refine ⟨hmain, ?_, ?_, by decide⟩
  · intro parts v hv
    exact scanParts_eq_some parts v hv
  · intro hp
    subst hp
    exact hmain "10" (by decide)

/-- C7 witness: the install-root state yields version `"10"`. -/
theorem C7_witness :
    is_in_openfoam_environment stateEnvWM = true ∧
    stateEnvWM.env "WM_PROJECT_DIR" =
      some "/opt/openfoam10/platforms/linux64GccDPInt32Opt" ∧
    get_openfoam_version stateEnvWM = some "10" := by
  refine ⟨by decide, by decide, ?_⟩
  exact (C7_version_from_install_root stateEnvWM (Or.inl (by decide))
    (Or.inl (by decide)) (Or.inl (by decide)) (by decide)
    "/opt/openfoam10/platforms/linux64GccDPInt32Opt" (by decide)
    (by decide)).2.2.1 rfl

/-- C8: every function degrades instead of failing — the version resolver
is a total function into `Option` (absence, not an error), and whenever the
prefix is empty the rewriter returns the command unchanged; in a state where
nothing is set and nothing resolves, the version is `none`, the prefix is
empty, and every command passes through unchanged. -/
theorem C8_graceful_degradation (s : SysState) :
    (∀ cmd : Cmd, get_openfoam_command_prefix s = [] →
      wrap_openfoam_command s cmd = cmd) ∧
    ((∀ exe, s.which exe = false) → (∀ x v, s.env x = some v → v = "") →
      get_openfoam_version s = none ∧
      get_openfoam_command_prefix s = [] ∧
      ∀ cmd : Cmd, wrap_openfoam_command s cmd = cmd) := by
  have hwrap : get_openfoam_command_prefix s = [] →
      ∀ cmd : Cmd, wrap_openfoam_command s cmd = cmd := by
    intro hpfx cmd
    cases cmd with
    | str c =>
      cases hsp : splitWs c with
      | nil => simp [wrap_openfoam_command, hsp]
      | cons w rest =>
        cases hsw : should_wrap_command (.str w) with
        | false => exact wrap_str_of_not_wrappable s c w rest hsp hsw
        | true => simp [wrap_openfoam_command, hsp, hsw, hpfx]
    | seq toks =>
      cases toks with
      | nil => rfl
      | cons t0 rest =>
        cases hsw : should_wrap_command t0 with
        | false => simp [wrap_openfoam_command, hsw]
        | true => simp [wrap_openfoam_command, hsw, hpfx]
  refine ⟨fun cmd hpfx => hwrap hpfx cmd, ?_⟩
  intro hwhich henv
  have henvT : ∀ x, getEnvTruthy s x = none := by
    intro x
    cases hx : s.env x with
    | none => simp [getEnvTruthy, hx]
    | some v =>
      have hv := henv x v hx
      simp [getEnvTruthy, hx, hv]
  have hptf : ∀ var, pyTruthy (s.env var) = false := by
    intro var
    cases hx : s.env var with
    | none => rfl
    | some v =>
      have hv := henv var v hx
      simp [pyTruthy, hv]
  have hin : is_in_openfoam_environment s = false := by
    unfold is_in_openfoam_environment
    simp [hptf, hwhich]
  have hver : get_openfoam_version s = none := by
    unfold get_openfoam_version
    have hblock : envBlockVersion s = none := by
      unfold envBlockVersion
      rw [if_neg (by simp [hin])]
    rw [henvT "FOAMLIB_OPENFOAM_VERSION", henvT "OPENFOAM_VERSION", hblock]
    unfold probeCommonVersions
    simp [List.find?_eq_none, hwhich]
  have hpfx : get_openfoam_command_prefix s = [] := by
    unfold get_openfoam_command_prefix
    rw [if_neg (by simp [hin])]
    have hfb : fallbackVersion s (get_openfoam_version s) = none := by
      unfold fallbackVersion
      rw [hver]
      simp [pyTruthy, List.find?_eq_none, hwhich]
    rw [hfb]
    show containerOrEmpty s = []
    unfold containerOrEmpty
    rw [if_neg (by simp [hwhich])]
  exact ⟨hver, hpfx, hwrap hpfx⟩

/-- C8 witness: the barren state, with a concrete command. -/
theorem C8_witness :
    get_openfoam_version stateBarren = none ∧
    get_openfoam_command_prefix stateBarren = [] ∧
    wrap_openfoam_command stateBarren (.str "blockMesh -case x") =
      .str "blockMesh -case x" := by
  have h := (C8_graceful_degradation stateBarren).2 (fun _ => rfl)
    (fun x v hx => by simp [stateBarren] at hx)
  exact ⟨h.1, h.2.1, h.2.2 (.str "blockMesh -case x")⟩

/-- C9: counterexample — the claim asserts a state with a non-empty prefix
and a command whose double wrap differs from its single wrap; no such pair
exists, because prefix tokens (wrapper executables or the container
runtime) are never recognized commands, so a wrapped result is never
re-wrapped. -/
theorem C9_counterexample :
    ¬ ∃ (s : SysState) (cmd : Cmd),
        get_openfoam_command_prefix s ≠ [] ∧
        wrap_openfoam_command s (wrap_openfoam_command s cmd) ≠
          wrap_openfoam_command s cmd := by
  rintro ⟨s, cmd, -, hne⟩
  exact hne (wrap_idempotent s cmd)

/-- C9 (amended): `wrap_openfoam_command` is idempotent in every fixed
environment and search-path state: applying it a second time to the
already-wrapped result returns that result unchanged, because no prefix
token is itself a recognized command. -/
theorem C9_amended_idempotence (s : SysState) (cmd : Cmd) :
    wrap_openfoam_command s (wrap_openfoam_command s cmd) =
      wrap_openfoam_command s cmd :=
  wrap_idempotent s cmd

/-- C10: the synthesized prefix always has one of three shapes: empty, a
single token starting with `"openfoam"`, or the eight-token container
invocation whose first seven tokens are fixed. -/
theorem C10_prefix_shapes (s : SysState) :
    get_openfoam_command_prefix s = [] ∨
    (∃ t, get_openfoam_command_prefix s = [t] ∧
      strStartsWith t "openfoam" = true) ∨
    (∃ img, get_openfoam_command_prefix s =
      ["docker", "run", "--rm", "-v", "$\x7bPWD\x7d:/workspace", "-w",
       "/workspace", img]) := by
  rcases cmdPfx_shape s with h | ⟨v, h⟩ | ⟨v, h⟩
  · exact Or.inl h
  · refine Or.inr (Or.inl ⟨"openfoam" ++ v, h, ?_⟩)
    unfold strStartsWith
    rw [ List.isPrefixOf_iff_prefix]
    exact ⟨v.data, (string_data_append "openfoam" v).symm⟩
  · exact Or.inr (Or.inr ⟨"openfoam/openfoam" ++ v ++ "-paraview510", h⟩)
